import Mathlib

/-!
Verification of the currency-display utilities of the dashboard:
`src/ui/litellm-dashboard/src/utils/currencyUtils.ts` and
`src/ui/litellm-dashboard/src/components/UsagePage/utils/value_formatters.tsx`.

JavaScript numbers are modelled as rationals (`ℚ`), strings as Lean `String`.
The JavaScript builtins the two files call (`toLocaleString('ru-RU', ...)`,
`toFixed`, `toString`, `parseFloat`, `String.prototype.replace`) are modelled
below with executable, fuel-based structural recursion so that every
definition evaluates inside the kernel.
-/

attribute [local semireducible] Rat.mul Rat.inv Rat.add Rat.sub

/-! ## Digit rendering (model of the decimal rendering used by JS builtins) -/

/-- The character of the decimal digit `d` (for `d < 10`), as in `Nat.digitChar`. -/
def digitCh (d : Nat) : Char := Nat.digitChar d

/-- Decimal digit characters of `n`, most significant first.  Fuel-based so the
kernel can reduce it; `fuel = n + 1` always suffices. -/
def natDigitCharsAux : Nat → Nat → List Char
  | 0, _ => []
  | fuel + 1, n =>
    if n < 10 then [digitCh n]
    else natDigitCharsAux fuel (n / 10) ++ [digitCh (n % 10)]

/-- Decimal digit characters of `n`, most significant first (e.g. `945 ↦ "945"`). -/
def natDigitChars (n : Nat) : List Char := natDigitCharsAux (n + 1) n

/-! ## Grouping (model of ru-RU digit grouping of `toLocaleString`) -/

/-- The no-break space U+00A0, the group separator of the `ru-RU` locale. -/
def nbspChar : Char := '\u00A0'

/-- Insert `nbspChar` after every three characters, counting from the head of a
reversed digit list; `k` is the number of characters still allowed before the
next separator. -/
def groupRev : List Char → Nat → List Char
  | [], _ => []
  | c :: cs, 0 => nbspChar :: c :: groupRev cs 2
  | c :: cs, k + 1 => c :: groupRev cs k

/-- Group a (most-significant-first) digit list in threes from the right with
no-break spaces, as the `ru-RU` locale does: `1234567 ↦ 1 234 567`. -/
def groupRu (ds : List Char) : List Char := (groupRev ds.reverse 3).reverse

/-! ## Model of `Number.prototype.toLocaleString('ru-RU', {min/maxFractionDigits: d})` -/

/-- Fractional part of the ru-RU rendering: empty for `d = 0`, otherwise a
decimal comma followed by `fp` zero-padded to exactly `d` digits (`fp < 10^d`). -/
def fracChars (d fp : Nat) : List Char :=
  if d = 0 then []
  else ',' :: (List.replicate (d - (natDigitChars fp).length) '0' ++ natDigitChars fp)

/-- Character list of the `ru-RU` locale rendering of `x` with exactly `d`
fraction digits: sign, integer digits grouped in threes by no-break spaces,
then a decimal comma and `d` fraction digits.  Rounding is half-away-from-zero
(ECMA-402 default `halfExpand`), realised on the magnitude as
`⌊m * 10^d + 1/2⌋`. -/
def ruLocaleChars (x : ℚ) (d : Nat) : List Char :=
  let m : ℚ := if x < 0 then -x else x
  let units : Nat := (Rat.floor (m * 10 ^ d + 1 / 2)).toNat
  let ip : Nat := units / 10 ^ d
  let fp : Nat := units % 10 ^ d
  (if x < 0 then ['-'] else []) ++ groupRu (natDigitChars ip) ++ fracChars d fp

/-- Model of `x.toLocaleString('ru-RU', {minimumFractionDigits: d,
maximumFractionDigits: d})`. -/
def toLocaleStringRu (x : ℚ) (d : Nat) : String := String.mk (ruLocaleChars x d)

/-! ## Model of `Number.prototype.toFixed` and `Number.prototype.toString` -/

/-- Characters of `toFixed d` on a non-negative `x`: integer digits (ungrouped),
then `.` and exactly `d` fraction digits; rounding picks the closest scaled
integer, ties toward the larger one, i.e. `⌊x * 10^d + 1/2⌋`. -/
def toFixedChars (d : Nat) (x : ℚ) : List Char :=
  let units : Nat := (Rat.floor (x * 10 ^ d + 1 / 2)).toNat
  let ip : Nat := units / 10 ^ d
  let fp : Nat := units % 10 ^ d
  natDigitChars ip ++
    (if d = 0 then []
     else '.' :: (List.replicate (d - (natDigitChars fp).length) '0' ++ natDigitChars fp))

/-- Model of `x.toFixed(d)` (ES: sign rendered separately from the magnitude). -/
def jsToFixed (d : Nat) (x : ℚ) : String :=
  if x < 0 then String.mk ('-' :: toFixedChars d (-x)) else String.mk (toFixedChars d x)

/-- Decimal expansion digits of the fraction `num / den` (with `num < den`),
one digit per fuel step; JS floats always have a finite decimal expansion, so
a fixed fuel of 100 digits loses nothing on the numbers JS can hold. -/
def fracDigitChars : Nat → Nat → Nat → List Char
  | 0, _, _ => []
  | fuel + 1, num, den =>
    if num = 0 then []
    else digitCh (num * 10 / den) :: fracDigitChars fuel (num * 10 % den) den

/-- Model of `Number.prototype.toString` (also the number-to-string coercion of
`number + "k"`): plain decimal rendering, sign, integer digits, and the
fractional expansion after a `.` when it is non-empty. -/
def jsNumToString (x : ℚ) : String :=
  let m : ℚ := if x < 0 then -x else x
  let ip : Nat := (Rat.floor m).toNat
  let frac : ℚ := m - (Rat.floor m : ℚ)
  let ds : List Char := fracDigitChars 100 frac.num.natAbs frac.den
  String.mk ((if x < 0 then ['-'] else []) ++ natDigitChars ip ++
    (if ds.isEmpty then [] else '.' :: ds))

/-! ## Model of `parseFloat` and `String.prototype.replace` -/

/-- Value of a list of decimal digit characters, most significant first. -/
def digitsToNat (ds : List Char) : Nat :=
  ds.foldl (fun acc c => 10 * acc + (c.toNat - 48)) 0

/-- Parse the longest `digits [. digits]` prefix of `cs` as a non-negative
rational; `none` when no digit is found before and after the optional dot. -/
def parseDecimalVal (cs : List Char) : Option ℚ :=
  let intDs := cs.takeWhile Char.isDigit
  let rest := cs.dropWhile Char.isDigit
  match rest with
  | '.' :: rest2 =>
    let fracDs := rest2.takeWhile Char.isDigit
    if intDs.isEmpty && fracDs.isEmpty then none
    else some ((digitsToNat intDs : ℚ) + (digitsToNat fracDs : ℚ) / 10 ^ fracDs.length)
  | _ => if intDs.isEmpty then none else some (digitsToNat intDs : ℚ)

/-- Model of `parseFloat`: skip leading whitespace, optional sign, then a plain
decimal literal; `none` models `NaN`.  Exponent notation and `Infinity` are
omitted: every call site in the sources is guarded by `isDollarPrice`, whose
accepted strings never contain them. -/
def jsParseFloat (s : String) : Option ℚ :=
  let cs := s.data.dropWhile fun c =>
    decide (c = ' ') || decide (c = '\t') || decide (c = '\n') || decide (c = '\r')
  match cs with
  | '-' :: rest => (parseDecimalVal rest).map fun v => -v
  | '+' :: rest => parseDecimalVal rest
  | _ => parseDecimalVal cs

/-- Split `l` around the first occurrence of `pat`: `some (pre, post)` with
`l = pre ++ pat ++ post`, or `none` when `pat` does not occur. -/
def firstSplit (pat : List Char) : List Char → Option (List Char × List Char)
  | [] => if pat.isEmpty then some ([], []) else none
  | c :: cs =>
    if pat.isPrefixOf (c :: cs) then some ([], (c :: cs).drop pat.length)
    else
      match firstSplit pat cs with
      | some (pre, post) => some (c :: pre, post)
      | none => none

/-- Model of `s.replace(pat, rep)` with a string pattern: replace the first
occurrence only, and return `s` unchanged when `pat` does not occur. -/
def jsReplaceFirst (s pat rep : String) : String :=
  match firstSplit pat.data s.data with
  | some (pre, post) => String.mk (pre ++ rep.data ++ post)
  | none => s

/-! ## currencyUtils.ts -/

/-- `USD_TO_RUB_RATE` of currencyUtils.ts: the fixed USD→RUB conversion rate. -/
def USD_TO_RUB_RATE : ℚ := 90

/-- `convertUsdToRub` of currencyUtils.ts: multiply by the fixed rate. -/
def convertUsdToRub (usdAmount : ℚ) : ℚ := usdAmount * USD_TO_RUB_RATE

/-- `formatRubles` of currencyUtils.ts: ru-RU locale rendering with `decimals`
fraction digits, followed by a space and the ruble sign.  The source's default
argument `decimals = 2` is passed explicitly at the call sites below. -/
def formatRubles (amount : ℚ) (decimals : Nat) : String :=
  toLocaleStringRu amount decimals ++ " ₽"

/-- `formatUsdAsRubles` of currencyUtils.ts: convert then format. -/
def formatUsdAsRubles (usdAmount : ℚ) (decimals : Nat) : String :=
  formatRubles (convertUsdToRub usdAmount) decimals

/-- Tail of the dollar-price pattern after the digit run: the regex
`\.?[0-9]*$` accepts the empty rest or a dot followed by any (possibly empty)
run of digits. -/
def dotTail : List Char → Bool
  | [] => true
  | c :: es => decide (c = '.') && es.all Char.isDigit

/-- `isDollarPrice` of currencyUtils.ts: `/^\$[0-9]+\.?[0-9]*$/.test s`.  The
anchored regex accepts exactly a dollar sign, a non-empty digit run, then
optionally a dot and a possibly-empty digit run; with the digit run read
greedily this is the test below. -/
def isDollarPrice (s : String) : Bool :=
  match s.data with
  | [] => false
  | c :: rest =>
    decide (c = '$') && !(rest.takeWhile Char.isDigit).isEmpty &&
      dotTail (rest.dropWhile Char.isDigit)

/-- `convertDollarStringToRubles` of currencyUtils.ts: non-prices pass through
unchanged; otherwise strip the first `$`, parse (`none` models the `isNaN`
fallback), convert and format with the default two decimals. -/
def convertDollarStringToRubles (priceString : String) : String :=
  if !(isDollarPrice priceString) then priceString
  else
    match jsParseFloat (jsReplaceFirst priceString "$" "") with
    | none => priceString
    | some numericValue => formatUsdAsRubles numericValue 2

/-! ## value_formatters.tsx -/

/-- `valueFormatter` of value_formatters.tsx: `toFixed(2) + "M"` above a
million, raw division plus `"k"` above a thousand, plain `toString` below. -/
def valueFormatter (number : ℚ) : String :=
  if 1000000 ≤ number then jsToFixed 2 (number / 1000000) ++ "M"
  else if 1000 ≤ number then jsNumToString (number / 1000) ++ "k"
  else jsNumToString number

/-- `valueFormatterSpend` of value_formatters.tsx: zero maps to `"0 ₽"`;
otherwise the scaled amount is converted and formatted with zero decimals and
the magnitude suffix is spliced in before the ruble sign. -/
def valueFormatterSpend (number : ℚ) : String :=
  if number = 0 then "0 ₽"
  else if 1000000 ≤ number then
    jsReplaceFirst (formatUsdAsRubles (number / 1000000) 0) " ₽" "M ₽"
  else if 1000 ≤ number then
    jsReplaceFirst (formatUsdAsRubles (number / 1000) 0) " ₽" "k ₽"
  else formatUsdAsRubles number 0

/-! ## Spec-side pattern for claim C3 -/

/-- Transcription of the spec's recognition rule, for comparison with
`isDollarPrice`: a dollar sign, one or more digits, optionally a dot and one
or more further digits (anchored, whole-string). -/
def specDollarToken (s : String) : Bool :=
  match s.data with
  | [] => false
  | c :: rest =>
    decide (c = '$') && !(rest.takeWhile Char.isDigit).isEmpty &&
      (match rest.dropWhile Char.isDigit with
       | [] => true
       | c2 :: es => decide (c2 = '.') && !es.isEmpty && es.all Char.isDigit)

/-- Structural form of the amended recognition rule of claim C3: a dollar
sign, a non-empty run of digits, then either nothing or a dot followed by a
possibly-empty run of digits. -/
def dollarTokenShape (s : String) : Prop :=
  ∃ ds rest, s.data = '$' :: (ds ++ rest) ∧ ds ≠ [] ∧ (∀ c ∈ ds, c.isDigit = true) ∧
    (rest = [] ∨ ∃ es, rest = '.' :: es ∧ ∀ c ∈ es, c.isDigit = true)

/-! ## Helper lemmas -/

theorem convert_eq_self_of_not_price (s : String) (h : isDollarPrice s = false) :
    convertDollarStringToRubles s = s := by
  unfold convertDollarStringToRubles
  rw [h]
  rfl

theorem digitCh_isDigit : ∀ d, d < 10 → (digitCh d).isDigit = true := by decide

theorem mem_natDigitCharsAux (fuel n : Nat) (c : Char)
    (h : c ∈ natDigitCharsAux fuel n) : c.isDigit = true := by
  induction fuel generalizing n with
  | zero => simp [natDigitCharsAux] at h
  | succ fuel ih =>
    unfold natDigitCharsAux at h
    by_cases hn : n < 10
    · rw [if_pos hn] at h
      simp only [List.mem_singleton] at h
      subst h
      exact digitCh_isDigit n hn
    · rw [if_neg hn] at h
      rcases List.mem_append.mp h with h1 | h2
      · exact ih _ h1
      · simp only [List.mem_singleton] at h2
        subst h2
        exact digitCh_isDigit _ (Nat.mod_lt _ (by norm_num))

theorem mem_groupRev (l : List Char) (k : Nat) (c : Char) (h : c ∈ groupRev l k) :
    c = nbspChar ∨ c ∈ l := by
  induction l generalizing k with
  | nil => simp [groupRev] at h
  | cons a as ih =>
    cases k with
    | zero =>
      simp only [groupRev] at h
      rcases List.mem_cons.mp h with h1 | h'
      · exact Or.inl h1
      rcases List.mem_cons.mp h' with h2 | h''
      · exact Or.inr (h2 ▸ List.mem_cons_self a as)
      · rcases ih 2 h'' with h3 | h3
        · exact Or.inl h3
        · exact Or.inr (List.mem_cons_of_mem a h3)
    | succ k =>
      simp only [groupRev] at h
      rcases List.mem_cons.mp h with h1 | h'
      · exact Or.inr (h1 ▸ List.mem_cons_self a as)
      · rcases ih k h' with h3 | h3
        · exact Or.inl h3
        · exact Or.inr (List.mem_cons_of_mem a h3)

theorem mem_groupRu (ds : List Char) (c : Char) (h : c ∈ groupRu ds) :
    c = nbspChar ∨ c ∈ ds := by
  unfold groupRu at h
  rw [List.mem_reverse] at h
  rcases mem_groupRev _ _ _ h with h1 | h1
  · exact Or.inl h1
  · exact Or.inr (List.mem_reverse.mp h1)

theorem no_dollar_ruLocaleChars (x : ℚ) (d : Nat) : '$' ∉ ruLocaleChars x d := by
  intro hmem
  simp only [ruLocaleChars, List.mem_append] at hmem
  rcases hmem with (h | h) | h
  · by_cases hx : x < 0
    · rw [if_pos hx] at h
      simp only [List.mem_singleton] at h
      exact absurd h (by decide)
    · rw [if_neg hx] at h
      exact absurd h (List.not_mem_nil _)
  · rcases mem_groupRu _ _ h with h1 | h1
    · exact absurd h1 (by decide)
    · exact absurd (mem_natDigitCharsAux _ _ _ h1) (by decide)
  · unfold fracChars at h
    by_cases hd : d = 0
    · rw [if_pos hd] at h
      exact absurd h (List.not_mem_nil _)
    · rw [if_neg hd] at h
      rcases List.mem_cons.mp h with h1 | h1
      · exact absurd h1 (by decide)
      · rcases List.mem_append.mp h1 with h2 | h2
        · exact absurd (List.eq_of_mem_replicate h2) (by decide)
        · exact absurd (mem_natDigitCharsAux _ _ _ h2) (by decide)

theorem isDollarPrice_mk_append_ruble (l : List Char) (hl : '$' ∉ l) :
    isDollarPrice (String.mk l ++ " ₽") = false := by
  have hdata : (String.mk l ++ " ₽").data = l ++ [' ', '₽'] := rfl
  unfold isDollarPrice
  rw [hdata]
  cases l with
  | nil => rfl
  | cons c cs =>
    have hc : c ≠ '$' := fun hcc => hl (hcc ▸ List.mem_cons_self c cs)
    have hdec : decide (c = '$') = false := decide_eq_false hc
    simp [hdec]

theorem isDollarPrice_formatRubles (x : ℚ) (d : Nat) :
    isDollarPrice (formatRubles x d) = false :=
  isDollarPrice_mk_append_ruble _ (no_dollar_ruLocaleChars x d)

/-! ## Claim theorems -/

/-- C1 (counterexample): `convertDollarStringToRubles "$10.50"` is not the
claimed string `"945.00 ₽"` — the ru-RU locale renders the decimal separator
as a comma, not a period. -/
theorem claim_C1_counterexample : convertDollarStringToRubles "$10.50" ≠ "945.00 ₽" := by
  decide

/-- C1 (amended): `convertDollarStringToRubles "$10.50"` returns the
secondary-currency formatting of 10.50 × 90 with exactly two fraction digits
and the ruble sign, rendered with the ru-RU decimal comma: `"945,00 ₽"`. -/
theorem claim_C1_amended_eval : convertDollarStringToRubles "$10.50" = "945,00 ₽" := by
  decide

/-- C2: every string the price-token pattern rejects passes through
`convertDollarStringToRubles` unchanged (identity, no error path). -/
theorem claim_C2_identity_on_nonmatching (s : String) (h : isDollarPrice s = false) :
    convertDollarStringToRubles s = s :=
  convert_eq_self_of_not_price s h

/-- C2 (witness): `"abc"` does not match and is returned unchanged. -/
theorem claim_C2_witness :
    isDollarPrice "abc" = false ∧ convertDollarStringToRubles "abc" = "abc" :=
  ⟨by decide, claim_C2_identity_on_nonmatching "abc" (by decide)⟩

/-- C4: below 1000 `valueFormatter` is the plain `toString` rendering, with no
suffix appended. -/
theorem claim_C4_plain_under_1000 (x : ℚ) (_h0 : 0 ≤ x) (h1 : x < 1000) :
    valueFormatter x = jsNumToString x := by
  unfold valueFormatter
  rw [if_neg (by linarith : ¬ (1000000 : ℚ) ≤ x), if_neg (by linarith : ¬ (1000 : ℚ) ≤ x)]

/-- C4 (witness): instance at `x = 5`. -/
theorem claim_C4_witness :
    (0 : ℚ) ≤ 5 ∧ (5 : ℚ) < 1000 ∧ valueFormatter 5 = jsNumToString 5 :=
  ⟨by norm_num, by norm_num, claim_C4_plain_under_1000 5 (by norm_num) (by norm_num)⟩

/-- C5: at or above a million, `valueFormatter` is the two-decimal rounding of
`x / 1000000` (the `toFixed(2)` rendering) with the suffix `"M"`. -/
theorem claim_C5_millions (x : ℚ) (h : 1000000 ≤ x) :
    valueFormatter x = jsToFixed 2 (x / 1000000) ++ "M" := by
  unfold valueFormatter
  rw [if_pos h]

/-- C5 (witness): instance at `x = 1500000`, where the result is `"1.50M"`. -/
theorem claim_C5_witness :
    (1000000 : ℚ) ≤ 1500000 ∧
      valueFormatter 1500000 = jsToFixed 2 ((1500000 : ℚ) / 1000000) ++ "M" ∧
      valueFormatter 1500000 = "1.50M" :=
  ⟨by norm_num, claim_C5_millions 1500000 (by norm_num), by decide⟩

/-- C6: between a thousand and a million, `valueFormatter` is the raw division
`x / 1000` rendered by plain `toString` (no fixed formatting) with the suffix
`"k"`. -/
theorem claim_C6_thousands (x : ℚ) (h1 : 1000 ≤ x) (h2 : x < 1000000) :
    valueFormatter x = jsNumToString (x / 1000) ++ "k" := by
  unfold valueFormatter
  rw [if_neg (by linarith : ¬ (1000000 : ℚ) ≤ x), if_pos h1]

/-- C6 (witness): instance at `x = 2500`, where the result is `"2.5k"`. -/
theorem claim_C6_witness :
    (1000 : ℚ) ≤ 2500 ∧ (2500 : ℚ) < 1000000 ∧
      valueFormatter 2500 = jsNumToString ((2500 : ℚ) / 1000) ++ "k" ∧
      valueFormatter 2500 = "2.5k" :=
  ⟨by norm_num, by norm_num, claim_C6_thousands 2500 (by norm_num) (by norm_num), by decide⟩

/-- C7: `valueFormatterSpend 0` is exactly the literal `"0 ₽"`. -/
theorem claim_C7_zero_spend : valueFormatterSpend 0 = "0 ₽" := by decide

/-- C8: `convertUsdToRub` is exact multiplication by the fixed rate constant
90, with no rounding at this stage. -/
theorem claim_C8_conversion_exact (a : ℚ) : convertUsdToRub a = a * 90 := rfl

/-- C9: `convertDollarStringToRubles` is idempotent on every string — the
output of a matching token starts with a digit (never `"$"`), so it is itself
rejected by the recognition pattern and passes through unchanged. -/
theorem claim_C9_idempotent (s : String) :
    convertDollarStringToRubles (convertDollarStringToRubles s) =
      convertDollarStringToRubles s := by
  by_cases h : isDollarPrice s = true
  · cases hp : jsParseFloat (jsReplaceFirst s "$" "") with
    | none =>
      have hs : convertDollarStringToRubles s = s := by
        unfold convertDollarStringToRubles
        rw [h, hp]
        rfl
      rw [hs]
      exact hs
    | some v =>
      have hs : convertDollarStringToRubles s = formatUsdAsRubles v 2 := by
        unfold convertDollarStringToRubles
        rw [h, hp]
        rfl
      rw [hs]
      exact convert_eq_self_of_not_price _ (isDollarPrice_formatRubles (convertUsdToRub v) 2)
  · have h' : isDollarPrice s = false := by
      cases hb : isDollarPrice s
      · rfl
      · exact absurd hb h
    have hs := convert_eq_self_of_not_price s h'
    rw [hs]
    exact hs

/-- C10: for every nonzero amount, `valueFormatterSpend` passes
`decimals = 0` (not the formatter's 2-decimal default) to the
secondary-currency formatter in each of its three branches: the scaled amount
is converted and rendered with zero fraction digits, and below 1000 the result
is exactly the locale rendering of `x * 90` with no decimal places followed by
the ruble sign. -/
theorem claim_C10_zero_decimals (x : ℚ) (hx : x ≠ 0) :
    valueFormatterSpend x =
      if 1000000 ≤ x then
        jsReplaceFirst (formatRubles (convertUsdToRub (x / 1000000)) 0) " ₽" "M ₽"
      else if 1000 ≤ x then
        jsReplaceFirst (formatRubles (convertUsdToRub (x / 1000)) 0) " ₽" "k ₽"
      else toLocaleStringRu (convertUsdToRub x) 0 ++ " ₽" := by
  unfold valueFormatterSpend
  rw [if_neg hx]
  split_ifs <;> rfl

/-- C10 (witness): instance at `x = 2000` (the `"k"` branch), where the
zero-decimal rendering gives `"180k ₽"` — the 2-decimal default would give
`"180,00k ₽"`. -/
theorem claim_C10_witness :
    (2000 : ℚ) ≠ 0 ∧
      valueFormatterSpend 2000 =
        (if (1000000 : ℚ) ≤ 2000 then
          jsReplaceFirst (formatRubles (convertUsdToRub ((2000 : ℚ) / 1000000)) 0) " ₽" "M ₽"
        else if (1000 : ℚ) ≤ 2000 then
          jsReplaceFirst (formatRubles (convertUsdToRub ((2000 : ℚ) / 1000)) 0) " ₽" "k ₽"
        else toLocaleStringRu (convertUsdToRub 2000) 0 ++ " ₽") ∧
      valueFormatterSpend 2000 = "180k ₽" :=
  ⟨by norm_num, claim_C10_zero_decimals 2000 (by norm_num), by decide⟩

theorem takeWhile_dropWhile_of_append (p : Char → Bool) (ds rest : List Char)
    (h1 : ∀ c ∈ ds, p c = true) (h2 : ∀ c, rest.head? = some c → p c = false) :
    (ds ++ rest).takeWhile p = ds ∧ (ds ++ rest).dropWhile p = rest := by
  induction ds with
  | nil =>
    simp only [List.nil_append]
    cases rest with
    | nil => exact ⟨rfl, rfl⟩
    | cons c cs =>
      have hc := h2 c rfl
      rw [List.takeWhile_cons, List.dropWhile_cons, hc]
      exact ⟨by simp, by simp⟩
  | cons d ds ih =>
    have hd := h1 d (List.mem_cons_self d ds)
    obtain ⟨iht, ihd⟩ := ih fun c hc => h1 c (List.mem_cons_of_mem d hc)
    constructor
    · rw [List.cons_append, List.takeWhile_cons, hd]
      simp only [if_true]
      rw [iht]
    · rw [List.cons_append, List.dropWhile_cons, hd]
      simp only [if_true]
      exact ihd

/-- C3 (counterexample): the code regex `/^\$[0-9]+\.?[0-9]*$/` accepts a
trailing dot with no digits after it, which the claimed pattern (dot followed
by one or more digits) rejects: at `"$5."` the two disagree. -/
theorem claim_C3_counterexample :
    isDollarPrice "$5." = true ∧ specDollarToken "$5." = false := by
  decide

/-- C3 (amended): `isDollarPrice s` is true iff `s` is a dollar sign followed
by one or more digits, optionally followed by a dot and zero or more further
digits (anchored, whole-string). -/
theorem claim_C3_amended_iff (s : String) : isDollarPrice s = true ↔ dollarTokenShape s := by
  constructor
  · intro h
    unfold isDollarPrice at h
    cases hs : s.data with
    | nil =>
      rw [hs] at h
      exact Bool.noConfusion h
    | cons c rest =>
      rw [hs] at h
      have h' : (decide (c = '$') && !(rest.takeWhile Char.isDigit).isEmpty &&
          dotTail (rest.dropWhile Char.isDigit)) = true := h
      simp only [Bool.and_eq_true] at h'
      obtain ⟨⟨hc, hne⟩, htail⟩ := h'
      have hc' : c = '$' := of_decide_eq_true hc
      subst hc'
      refine ⟨rest.takeWhile Char.isDigit, rest.dropWhile Char.isDigit, ?_, ?_, ?_, ?_⟩
      · rw [hs, List.takeWhile_append_dropWhile]
      · intro hnil
        rw [hnil] at hne
        exact Bool.noConfusion hne
      · intro c2 hc2
        exact List.mem_takeWhile_imp hc2
      · cases hdrop : rest.dropWhile Char.isDigit with
        | nil => exact Or.inl rfl
        | cons c2 es =>
          rw [hdrop] at htail
          unfold dotTail at htail
          simp only [Bool.and_eq_true] at htail
          obtain ⟨hdot, hall⟩ := htail
          have hc2' : c2 = '.' := of_decide_eq_true hdot
          subst hc2'
          exact Or.inr ⟨es, rfl, fun c3 hc3 => List.all_eq_true.mp hall c3 hc3⟩
  · rintro ⟨ds, rest, hdata, hne, hds, hrest⟩
    have hhead : ∀ c, rest.head? = some c → Char.isDigit c = false := by
      rcases hrest with hnil | ⟨es, hcons, _⟩
      · subst hnil
        intro c hc
        exact absurd hc (by simp)
      · subst hcons
        intro c hc
        have hc' : c = '.' := by
          simp only [List.head?_cons, Option.some.injEq] at hc
          exact hc.symm
        subst hc'
        decide
    obtain ⟨htake, hdrop⟩ := takeWhile_dropWhile_of_append Char.isDigit ds rest hds hhead
    unfold isDollarPrice
    rw [hdata]
    change (decide ('$' = '$') && !((ds ++ rest).takeWhile Char.isDigit).isEmpty &&
        dotTail ((ds ++ rest).dropWhile Char.isDigit)) = true
    rw [htake, hdrop]
    simp only [Bool.and_eq_true]
    refine ⟨⟨by decide, ?_⟩, ?_⟩
    · cases ds with
      | nil => exact absurd rfl hne
      | cons a as => rfl
    · rcases hrest with hnil | ⟨es, hcons, hall⟩
      · subst hnil
        rfl
      · subst hcons
        unfold dotTail
        simp only [Bool.and_eq_true]
        exact ⟨by decide, List.all_eq_true.mpr hall⟩
